import Mathlib

/-!
Verification development for the InteraktywnyGrafikPlaner board model.

Shallow embedding of the core domain model of the repository:
the board state (columns, rows, tiles) handled by `BoardStateManager`
(src/renderer/renderer.js and its year/week-aware variant), the tile-state
cycling function (src/models/TileState.js), the undo/redo engine
(src/services/HistoryManager.js), and the class-based `Board`/`Row`/`Column`/
`Tile` model with its `toJSON`/`fromJSON` serialization (src/models).

JavaScript objects become Lean structures; JS arrays become `List`;
JS numbers used as counts or indices become `Nat`/`Int` (the guards in the
source compare against 0, so positional arguments that the source range-checks
are embedded as `Int`); tile states are the literal JS strings
`"A"`, `"Praca"`, `"U"`; mutation methods become functions from the old state
to the new state (paired with the JS return value where the method returns
one).
-/

namespace GrafikPlaner

/-! ## TileState (src/models/TileState.js)

`TileState` is a frozen object of three string constants, and
`TILE_STATE_ORDER` the fixed cycling order. -/

def TileState.A : String := "A"

def TileState.PRACA : String := "Praca"

def TileState.U : String := "U"

def TILE_STATE_ORDER : List String := [TileState.A, TileState.PRACA, TileState.U]

/-- JS `Array.prototype.indexOf`, accumulator form: the index of the first
occurrence of `x`, or `-1` when `x` does not occur. -/
def jsIndexOfFrom (x : String) : List String → Int → Int
  | [], _ => -1
  | y :: ys, i => if y = x then i else jsIndexOfFrom x ys (i + 1)

def jsIndexOf (xs : List String) (x : String) : Int :=
  jsIndexOfFrom x xs 0

/-- `getNextTileState` (src/models/TileState.js): look the current state up in
`TILE_STATE_ORDER`, advance by one modulo the order's length.  An unknown
state has index `-1`, so the next index is `0`. -/
def getNextTileState (currentState : String) : String :=
  let currentIndex := jsIndexOf TILE_STATE_ORDER currentState
  let nextIndex := (currentIndex + 1) % (TILE_STATE_ORDER.length : Int)
  TILE_STATE_ORDER.getD nextIndex.toNat ""

/-! ## Board state records (the plain-object state of `BoardStateManager`) -/

structure Tile where
  rowIndex : Nat
  columnIndex : Nat
  state : String
deriving Repr, DecidableEq

structure Row where
  index : Nat
  header : String
  includedInCalculations : Bool
  tiles : List Tile
deriving Repr, DecidableEq

structure Column where
  index : Nat
  requiredWorkers : Int
deriving Repr, DecidableEq

structure BoardState where
  columns : List Column
  rows : List Row
deriving Repr, DecidableEq

/-- JS indexing `arr[i]` with a possibly negative index: `undefined` (here
`none`) for a negative or out-of-range index. -/
def jsGet? (l : List α) (i : Int) : Option α :=
  if 0 ≤ i then l.get? i.toNat else none

/-- `createEmptyState`: seven columns with `requiredWorkers = 1`, no rows. -/
def createEmptyState : BoardState :=
  { columns := (List.range 7).map (fun index => { index := index, requiredWorkers := 1 }),
    rows := [] }

/-- `BoardStateManager.addRow`: append a row at the end, indexed with the
current row count, seven tiles (one per weekday) in state `"A"`,
`includedInCalculations = true`.  Returns the created row. -/
def addRow (b : BoardState) (header : String) : BoardState × Row :=
  let newRow : Row :=
    { index := b.rows.length,
      header := header,
      includedInCalculations := true,
      tiles := (List.range 7).map (fun colIndex =>
        { rowIndex := b.rows.length, columnIndex := colIndex, state := TileState.A }) }
  ({ b with rows := b.rows ++ [newRow] }, newRow)

/-- `BoardStateManager._reindexRows`, accumulator form of the
`forEach((row, index) => ...)`: row `index` and every tile's `rowIndex`
become the row's position. -/
def reindexFrom : Nat → List Row → List Row
  | _, [] => []
  | i, r :: rs =>
      { r with
        index := i,
        tiles := r.tiles.map (fun t => { t with rowIndex := i }) } :: reindexFrom (i + 1) rs

def reindexRows (rows : List Row) : List Row :=
  reindexFrom 0 rows

/-- `BoardStateManager.removeRow`: splice out the row when the index is in
range and reindex, returning `true`; otherwise leave the state alone and
return `false`. -/
def removeRow (b : BoardState) (rowIndex : Int) : BoardState × Bool :=
  if 0 ≤ rowIndex ∧ rowIndex < (b.rows.length : Int) then
    ({ b with rows := reindexRows (b.rows.eraseIdx rowIndex.toNat) }, true)
  else
    (b, false)

/-- `BoardStateManager._swapRows`: exchange the rows at the two positions and
reindex.  Only reachable from `moveRowUp`/`moveRowDown` with both positions in
range; out of range it keeps the state (the JS caller never does this). -/
def swapRows (b : BoardState) (indexA indexB : Nat) : BoardState :=
  match b.rows.get? indexA, b.rows.get? indexB with
  | some ra, some rb =>
      { b with rows := reindexRows ((b.rows.set indexA rb).set indexB ra) }
  | _, _ => b

/-- `BoardStateManager.moveRowUp`: swap with the previous row when
`0 < rowIndex < rowCount`, else report failure. -/
def moveRowUp (b : BoardState) (rowIndex : Int) : BoardState × Bool :=
  if 0 < rowIndex ∧ rowIndex < (b.rows.length : Int) then
    (swapRows b rowIndex.toNat (rowIndex.toNat - 1), true)
  else
    (b, false)

/-- `BoardStateManager.moveRowDown`: swap with the next row when
`0 ≤ rowIndex < rowCount - 1`, else report failure. -/
def moveRowDown (b : BoardState) (rowIndex : Int) : BoardState × Bool :=
  if 0 ≤ rowIndex ∧ rowIndex < (b.rows.length : Int) - 1 then
    (swapRows b rowIndex.toNat (rowIndex.toNat + 1), true)
  else
    (b, false)

/-- `BoardStateManager.toggleTileState`: when both coordinates hit an existing
row and tile, advance the tile's state one step in `TILE_STATE_ORDER`
(the method inlines the same indexOf/modulo computation as
`getNextTileState`) and return the new state; otherwise return `null`. -/
def toggleTileState (b : BoardState) (rowIndex columnIndex : Nat) :
    BoardState × Option String :=
  match b.rows.get? rowIndex with
  | none => (b, none)
  | some row =>
    match row.tiles.get? columnIndex with
    | none => (b, none)
    | some tile =>
      let newState := getNextTileState tile.state
      ({ b with
          rows := b.rows.set rowIndex
            { row with tiles := row.tiles.set columnIndex { tile with state := newState } } },
       some newState)

/-- `BoardStateManager.setColumnRequiredWorkers`: write the count only when
the column exists and `count > 0`; otherwise no state change at all. -/
def setColumnRequiredWorkers (b : BoardState) (columnIndex count : Int) : BoardState :=
  match jsGet? b.columns columnIndex with
  | some col =>
      if 0 < count then
        { b with columns := b.columns.set columnIndex.toNat { col with requiredWorkers := count } }
      else b
  | none => b

/-- `BoardStateManager.countPracaInColumn`: over the rows whose
`includedInCalculations` is set, add one for each tile at the column that
exists and is in state `"Praca"`. -/
def countPracaInColumn (b : BoardState) (columnIndex : Nat) : Nat :=
  (b.rows.filter (fun row => row.includedInCalculations)).foldl
    (fun count row =>
      match row.tiles.get? columnIndex with
      | some tile => count + (if tile.state = TileState.PRACA then 1 else 0)
      | none => count + 0)
    0

/-- `BoardStateManager.isColumnValid`: `false` for a missing column; Sunday
(index 6) demands the work count to equal the requirement exactly, the other
days allow the requirement or the requirement plus one. -/
def isColumnValid (b : BoardState) (columnIndex : Nat) : Bool :=
  match b.columns.get? columnIndex with
  | none => false
  | some column =>
    let pracaCount := (countPracaInColumn b columnIndex : Int)
    let required := column.requiredWorkers
    if columnIndex = 6 then
      pracaCount = required
    else
      pracaCount = required || pracaCount = required + 1

/-! ## HistoryManager (src/services/HistoryManager.js)

The stacks hold `JSON.stringify`-ed snapshots and `undo`/`redo` parse them
back.  In this value-semantics embedding the stringify/parse round trip is the
identity, so the stacks are lists over the snapshot type `σ` with the top at
the end (JS `push`/`pop` operate on the end, `shift` removes the front). -/

structure HistoryManager (σ : Type) where
  undoStack : List σ
  redoStack : List σ
  maxHistorySize : Nat
deriving Repr, DecidableEq

/-- The constructor: both stacks empty (JS default capacity is 100). -/
def HistoryManager.new (maxHistorySize : Nat := 100) : HistoryManager σ :=
  { undoStack := [], redoStack := [], maxHistorySize := maxHistorySize }

/-- `HistoryManager.pushState`: push the snapshot on the undo stack, empty the
redo stack, and when the undo stack is then longer than `maxHistorySize`,
`shift` away its oldest (front) entry. -/
def HistoryManager.pushState (h : HistoryManager σ) (stateSnapshot : σ) :
    HistoryManager σ :=
  let u := h.undoStack ++ [stateSnapshot]
  { h with
    undoStack := if h.maxHistorySize < u.length then u.tail else u,
    redoStack := [] }

/-- `HistoryManager.undo`: `null` and no change on an empty undo stack;
otherwise push the caller's current state on the redo stack and pop and return
the most recent undo entry. -/
def HistoryManager.undo (h : HistoryManager σ) (currentState : σ) :
    HistoryManager σ × Option σ :=
  if h.undoStack.length = 0 then (h, none)
  else
    ({ h with
        undoStack := h.undoStack.dropLast,
        redoStack := h.redoStack ++ [currentState] },
     h.undoStack.getLast?)

/-- `HistoryManager.redo`: symmetric to `undo` with the stacks exchanged. -/
def HistoryManager.redo (h : HistoryManager σ) (currentState : σ) :
    HistoryManager σ × Option σ :=
  if h.redoStack.length = 0 then (h, none)
  else
    ({ h with
        undoStack := h.undoStack ++ [currentState],
        redoStack := h.redoStack.dropLast },
     h.redoStack.getLast?)

def HistoryManager.canUndo (h : HistoryManager σ) : Bool :=
  decide (0 < h.undoStack.length)

def HistoryManager.canRedo (h : HistoryManager σ) : Bool :=
  decide (0 < h.redoStack.length)

/-- One call into the manager, for stating invariants over arbitrary call
sequences. -/
inductive HistOp (σ : Type) where
  | push (s : σ)
  | undo (cur : σ)
  | redo (cur : σ)

def HistoryManager.applyOp (h : HistoryManager σ) : HistOp σ → HistoryManager σ
  | .push s => h.pushState s
  | .undo cur => (h.undo cur).1
  | .redo cur => (h.redo cur).1

/-! ## The class-based model (src/models) and its serialization

`Tile` and `Row` instances carry exactly the fields their `toJSON` emits, so
the record types above serve for both the live objects and their serialized
form.  `Column` differs: the constructor derives `name` from the index via
`DAYS_OF_WEEK`, `toJSON` drops it, and `fromJSON` re-derives it. -/

def DAYS_OF_WEEK : List String :=
  ["Poniedziałek", "Wtorek", "Środa", "Czwartek", "Piątek", "Sobota", "Niedziela"]

structure ColumnObj where
  index : Nat
  name : String
  requiredWorkers : Int
deriving Repr, DecidableEq

/-- The `Column` constructor: `this.name = Column.DAYS_OF_WEEK[index]`
(an out-of-range index would read `undefined`; boards only ever hold indices
0–6, embedded as the default `""`). -/
def ColumnObj.make (index : Nat) (requiredWorkers : Int) : ColumnObj :=
  { index := index, name := DAYS_OF_WEEK.getD index "", requiredWorkers := requiredWorkers }

/-- `Column.prototype.toJSON`: only `index` and `requiredWorkers`. -/
def ColumnObj.toJSON (c : ColumnObj) : Column :=
  { index := c.index, requiredWorkers := c.requiredWorkers }

/-- `Column.fromJSON`: runs the constructor on the serialized fields. -/
def ColumnObj.fromJSON (data : Column) : ColumnObj :=
  ColumnObj.make data.index data.requiredWorkers

/-- `Tile.prototype.toJSON` (src/models/Tile.js): the three fields. -/
def Tile.toJSON (t : Tile) : Tile :=
  { rowIndex := t.rowIndex, columnIndex := t.columnIndex, state := t.state }

/-- `Tile.fromJSON`: the constructor on the serialized fields. -/
def Tile.fromJSON (data : Tile) : Tile :=
  { rowIndex := data.rowIndex, columnIndex := data.columnIndex, state := data.state }

/-- `Row.prototype.toJSON` (src/models/Row.js): the scalar fields plus the
tiles mapped through `Tile.toJSON`. -/
def Row.toJSON (r : Row) : Row :=
  { index := r.index, header := r.header,
    includedInCalculations := r.includedInCalculations,
    tiles := r.tiles.map Tile.toJSON }

/-- `Row.fromJSON`: rebuild the tiles with `Tile.fromJSON`, then the
constructor. -/
def Row.fromJSON (data : Row) : Row :=
  { index := data.index, header := data.header,
    includedInCalculations := data.includedInCalculations,
    tiles := data.tiles.map Tile.fromJSON }

structure BoardObj where
  columns : List ColumnObj
  rows : List Row
deriving Repr, DecidableEq

/-- `Board.prototype.toJSON` (src/models/Board.js). -/
def BoardObj.toJSON (b : BoardObj) : BoardState :=
  { columns := b.columns.map ColumnObj.toJSON,
    rows := b.rows.map Row.toJSON }

/-- `Board.fromJSON`. -/
def BoardObj.fromJSON (data : BoardState) : BoardObj :=
  { columns := data.columns.map ColumnObj.fromJSON,
    rows := data.rows.map Row.fromJSON }

/-! ## Derived observers and concrete boards used in the statements -/

/-- `Board.getTile` (src/models/Board.js): the tile at the coordinates, or
nothing when either coordinate misses. -/
def getTile (b : BoardState) (rowIndex columnIndex : Nat) : Option Tile :=
  match b.rows.get? rowIndex with
  | some row => row.tiles.get? columnIndex
  | none => none

/-- Iterated toggle, keeping only the board (the UI clicks a tile
repeatedly). -/
def toggledBoard (b : BoardState) (rowIndex columnIndex : Nat) : BoardState :=
  (toggleTileState b rowIndex columnIndex).1

/-- The work count as the spec phrases it: the number of rows whose inclusion
flag is true and whose tile at the column is in the Work state. -/
def specWorkCount (b : BoardState) (columnIndex : Nat) : Nat :=
  b.rows.countP (fun row =>
    row.includedInCalculations &&
      ((row.tiles.get? columnIndex).any (fun t => t.state = TileState.PRACA)))

/-- The index-independent content of a row: header, inclusion flag and the
tile states in order. -/
def rowContent (r : Row) : String × Bool × List String :=
  (r.header, r.includedInCalculations, r.tiles.map (fun t => t.state))

/-- Rows indexed densely from `i`, every tile's back-reference matching. -/
def denseFrom : Nat → List Row → Bool
  | _, [] => true
  | i, r :: rs =>
      (decide (r.index = i) && r.tiles.all (fun t => decide (t.rowIndex = i)))
        && denseFrom (i + 1) rs

/-- A row owns exactly seven tiles with column positions `0..6` in order. -/
def tilesWellFormed (r : Row) : Bool :=
  decide (r.tiles.map (fun t => t.columnIndex) = [0, 1, 2, 3, 4, 5, 6])

/-- The structural invariant of a board: dense row indices with matching tile
back-references, and seven well-placed tiles per row. -/
def boardWellFormed (b : BoardState) : Bool :=
  denseFrom 0 b.rows && b.rows.all tilesWellFormed

/-- A row entirely in state `"Praca"`, included in the calculations. -/
def pracaRow (i : Nat) : Row :=
  { index := i, header := "", includedInCalculations := true,
    tiles := (List.range 7).map (fun c =>
      { rowIndex := i, columnIndex := c, state := TileState.PRACA }) }

/-- A board with every requirement set to `req` and `k` included all-work
rows, so every column's work count is `k`. -/
def testBoard (k : Nat) (req : Int) : BoardState :=
  { columns := (List.range 7).map (fun i => { index := i, requiredWorkers := req }),
    rows := (List.range k).map pracaRow }

/-- One included all-work row and one excluded all-work row, every requirement
`1`. -/
def mixedBoard : BoardState :=
  { columns := (List.range 7).map (fun i => { index := i, requiredWorkers := 1 }),
    rows := [pracaRow 0, { pracaRow 1 with includedInCalculations := false }] }

/-- A board whose single tile carries a state outside the three known values,
as corrupted persisted data could produce. -/
def corruptBoard : BoardState :=
  { columns := [],
    rows := [{ index := 0, header := "", includedInCalculations := true,
               tiles := [{ rowIndex := 0, columnIndex := 0, state := "X" }] }] }

/-- A populated class-based board for exercising the serialization round
trip: mixed inclusion flags and tile states. -/
def sampleBoardObj : BoardObj :=
  { columns := (List.range 7).map (fun i => ColumnObj.make i (if i = 6 then 2 else 3)),
    rows := [pracaRow 0,
             { pracaRow 1 with
                header := "Anna", includedInCalculations := false,
                tiles := (pracaRow 1).tiles.map (fun t =>
                  { t with state := if t.columnIndex = 0 then TileState.U else TileState.A }) }] }

/-! ## Theorems -/

/-- Toggling at coordinates that hit a tile advances exactly that tile one
step and reports the advanced state. -/
theorem getTile_toggle (b : BoardState) (ri ci : Nat) (t : Tile)
    (h : getTile b ri ci = some t) :
    getTile (toggledBoard b ri ci) ri ci
        = some { t with state := getNextTileState t.state } ∧
      (toggleTileState b ri ci).2 = some (getNextTileState t.state) := by
  cases hr : b.rows[ri]? with
  | none => simp [getTile, hr] at h
  | some row =>
    have h' : row.tiles[ci]? = some t := by simpa [getTile, hr] using h
    have hrl : ri < b.rows.length := (List.getElem?_eq_some.mp hr).1
    have htl : ci < row.tiles.length := (List.getElem?_eq_some.mp h').1
    constructor
    · simp [toggledBoard, toggleTileState, getTile, hr, h', hrl, htl]
    · simp [toggleTileState, hr, h']

/-- The three known states each advance to their cyclic successor. -/
theorem getNextTileState_known :
    getNextTileState TileState.A = TileState.PRACA ∧
      getNextTileState TileState.PRACA = TileState.U ∧
      getNextTileState TileState.U = TileState.A := by
  refine ⟨?_, ?_, ?_⟩ <;> rfl

/-- C3: the tile-state cycling function advances one position in the fixed
order `A → Praca → U`, wrapping from the last back to the first, and for each
of the three known states, applying the toggle three times — directly through
`getNextTileState`, or through `toggleTileState` at coordinates that hit a
tile — returns the tile to its original state. -/
theorem tileCycle_spec :
    getNextTileState TileState.A = TileState.PRACA ∧
      getNextTileState TileState.PRACA = TileState.U ∧
      getNextTileState TileState.U = TileState.A ∧
      (∀ s ∈ TILE_STATE_ORDER,
        getNextTileState (getNextTileState (getNextTileState s)) = s) ∧
      (∀ (b : BoardState) (ri ci : Nat) (t : Tile),
        getTile b ri ci = some t → t.state ∈ TILE_STATE_ORDER →
        getTile (toggledBoard (toggledBoard (toggledBoard b ri ci) ri ci) ri ci) ri ci
          = some t) := by
  refine ⟨rfl, rfl, rfl, ?_, ?_⟩
  · intro s hs
    simp only [TILE_STATE_ORDER, List.mem_cons, List.not_mem_nil, or_false] at hs
    rcases hs with h | h | h <;> subst h <;> rfl
  · intro b ri ci t h hmem
    have h1 := getTile_toggle b ri ci t h
    have h2 := getTile_toggle _ ri ci _ h1.1
    have h3 := getTile_toggle _ ri ci _ h2.1
    rw [h3.1]
    have hcyc : getNextTileState (getNextTileState (getNextTileState t.state)) = t.state := by
      simp only [TILE_STATE_ORDER, List.mem_cons, List.not_mem_nil, or_false] at hmem
      rcases hmem with h' | h' | h' <;> rw [h'] <;> rfl
    simp [hcyc]

/-- Witness for `tileCycle_spec`: cycling the single tile of a one-row board
three times restores its initial `"A"` state. -/
theorem tileCycle_spec_witness :
    getTile
        (toggledBoard
          (toggledBoard (toggledBoard (addRow createEmptyState "Anna").1 0 0) 0 0) 0 0)
        0 0
      = some { rowIndex := 0, columnIndex := 0, state := TileState.A } :=
  tileCycle_spec.2.2.2.2 (addRow createEmptyState "Anna").1 0 0
    { rowIndex := 0, columnIndex := 0, state := TileState.A }
    (by decide) (by decide)

/-- C10: a tile state outside the three known values has index `-1` in
`TILE_STATE_ORDER`, so toggling it — through `getNextTileState` or through
`toggleTileState` at coordinates that hit a tile — deterministically yields
`"A"`, the first value of the cycling order. -/
theorem unknownState_toggle_spec :
    (∀ s : String, s ∉ TILE_STATE_ORDER → getNextTileState s = TileState.A) ∧
      (∀ (b : BoardState) (ri ci : Nat) (t : Tile),
        getTile b ri ci = some t → t.state ∉ TILE_STATE_ORDER →
        (toggleTileState b ri ci).2 = some TileState.A ∧
          getTile (toggledBoard b ri ci) ri ci = some { t with state := TileState.A }) := by
  have base : ∀ s : String, s ∉ TILE_STATE_ORDER → getNextTileState s = TileState.A := by
    intro s hs
    simp only [TILE_STATE_ORDER, List.mem_cons, List.not_mem_nil, or_false, not_or] at hs
    obtain ⟨h1, h2, h3⟩ := hs
    simp [getNextTileState, jsIndexOf, jsIndexOfFrom, TILE_STATE_ORDER,
      Ne.symm h1, Ne.symm h2, Ne.symm h3]
  refine ⟨base, ?_⟩
  intro b ri ci t h hs
  have h1 := getTile_toggle b ri ci t h
  rw [base t.state hs] at h1
  exact ⟨h1.2, h1.1⟩

/-- Witness for `unknownState_toggle_spec`: the corrupted state `"X"` toggles
to `"A"`, also through a board whose single tile is corrupted. -/
theorem unknownState_toggle_spec_witness :
    getNextTileState "X" = TileState.A ∧
      (toggleTileState corruptBoard 0 0).2 = some TileState.A :=
  ⟨unknownState_toggle_spec.1 "X" (by decide),
    (unknownState_toggle_spec.2 corruptBoard 0 0
      { rowIndex := 0, columnIndex := 0, state := "X" } (by decide) (by decide)).1⟩

/-- Accumulator form of the work-count fold: the fold over the included rows
adds, to the accumulator, the count of rows that are included and whose tile
at the column is in the Work state. -/
theorem countPraca_go (c : Nat) :
    ∀ (rows : List Row) (n : Nat),
      (rows.filter (fun row => row.includedInCalculations)).foldl
        (fun count row =>
          match row.tiles[c]? with
          | some tile => count + if tile.state = TileState.PRACA then 1 else 0
          | none => count) n
      = n + rows.countP (fun row =>
          row.includedInCalculations &&
            (row.tiles[c]?.any fun t => t.state = TileState.PRACA))
  | [], n => by simp
  | r :: rs, n => by
    by_cases hi : r.includedInCalculations
    · cases ht : r.tiles[c]? with
      | none =>
        simp [List.filter_cons, hi, List.countP_cons, ht, countPraca_go c rs]
      | some tile =>
        by_cases hp : tile.state = TileState.PRACA
        · simp [List.filter_cons, hi, List.countP_cons, ht, hp, countPraca_go c rs]
          ring
        · simp [List.filter_cons, hi, List.countP_cons, ht, hp, countPraca_go c rs]
    · simp [List.filter_cons, hi, List.countP_cons, countPraca_go c rs]

/-- C2: the work count of a column is exactly the number of rows whose
inclusion flag is true and whose tile at the column is in state `"Praca"`;
excluded rows contribute nothing.  In particular `mixedBoard` — one included
and one excluded all-work row, requirement 1 — has work count 1 in weekday
column 0 and that column is valid. -/
theorem countPraca_spec :
    (∀ (b : BoardState) (c : Nat), countPracaInColumn b c = specWorkCount b c) ∧
      countPracaInColumn mixedBoard 0 = 1 ∧ isColumnValid mixedBoard 0 = true := by
  refine ⟨?_, by decide, by decide⟩
  intro b c
  have h := countPraca_go c b.rows 0
  simpa [countPracaInColumn, specWorkCount] using h

/-- C1: for a column that exists, validity means: on Sunday (index 6) the
work count equals the requirement exactly; on the other days it equals the
requirement or the requirement plus one.  In particular with requirement 3,
weekday work counts 3 and 4 are valid and 2 and 5 are not, and on Sunday only
exactly 3 is valid. -/
theorem isColumnValid_spec :
    (∀ (b : BoardState) (c : Nat) (col : Column), b.columns[c]? = some col →
      (isColumnValid b c = true ↔
        (if c = 6 then
          (countPracaInColumn b c : Int) = col.requiredWorkers
         else
          (countPracaInColumn b c : Int) = col.requiredWorkers ∨
            (countPracaInColumn b c : Int) = col.requiredWorkers + 1))) ∧
      isColumnValid (testBoard 3 3) 0 = true ∧
      isColumnValid (testBoard 4 3) 0 = true ∧
      isColumnValid (testBoard 2 3) 0 = false ∧
      isColumnValid (testBoard 5 3) 0 = false ∧
      isColumnValid (testBoard 3 3) 6 = true ∧
      isColumnValid (testBoard 4 3) 6 = false := by
  refine ⟨?_, by decide, by decide, by decide, by decide, by decide, by decide⟩
  intro b c col h
  by_cases hc : c = 6
  · subst hc
    simp [isColumnValid, h]
  · simp [isColumnValid, h, hc]

/-- Witness for `isColumnValid_spec`: weekday column 0 of the three-work-row
board with requirement 3 is valid exactly when its work count is 3 or 4. -/
theorem isColumnValid_spec_witness :
    isColumnValid (testBoard 3 3) 0 = true ↔
      ((countPracaInColumn (testBoard 3 3) 0 : Int) = 3 ∨
        (countPracaInColumn (testBoard 3 3) 0 : Int) = 3 + 1) := by
  have h := isColumnValid_spec.1 (testBoard 3 3) 0
    { index := 0, requiredWorkers := 3 } (by decide)
  simpa using h

/-- One `pushState` on a within-capacity manager: the new undo stack is the
old one with the snapshot appended, with the front dropped exactly when the
capacity is exceeded. -/
theorem pushState_undo_eq {σ : Type} (h : HistoryManager σ) (s : σ)
    (hle : h.undoStack.length ≤ h.maxHistorySize) :
    (h.pushState s).undoStack
      = (h.undoStack ++ [s]).drop (h.undoStack.length + 1 - h.maxHistorySize) := by
  have hproj : (h.pushState s).undoStack
      = if h.maxHistorySize < (h.undoStack ++ [s]).length
        then (h.undoStack ++ [s]).tail else h.undoStack ++ [s] := rfl
  rw [hproj]
  by_cases hc : h.maxHistorySize < (h.undoStack ++ [s]).length
  · have hd : h.undoStack.length + 1 - h.maxHistorySize = 1 := by
      simp only [List.length_append, List.length_cons, List.length_nil] at hc; omega
    rw [if_pos hc, hd, List.drop_one]
  · have hd : h.undoStack.length + 1 - h.maxHistorySize = 0 := by
      simp only [List.length_append, List.length_cons, List.length_nil] at hc; omega
    rw [if_neg hc, hd, List.drop_zero]

/-- Folding `pushState` over a snapshot list keeps exactly the most recent
`maxHistorySize` of the combined old-stack-plus-new-snapshots sequence. -/
theorem pushState_foldl_undo {σ : Type} :
    ∀ (l : List σ) (h : HistoryManager σ),
      h.undoStack.length ≤ h.maxHistorySize →
      (l.foldl HistoryManager.pushState h).undoStack
          = (h.undoStack ++ l).drop (h.undoStack.length + l.length - h.maxHistorySize)
        ∧ (l.foldl HistoryManager.pushState h).maxHistorySize = h.maxHistorySize
  | [], h, hle => by
    refine ⟨?_, rfl⟩
    simp [Nat.sub_eq_zero_of_le hle]
  | s :: l', h, hle => by
    have hps := pushState_undo_eq h s hle
    have hms : (h.pushState s).maxHistorySize = h.maxHistorySize := rfl
    have hlen : (h.pushState s).undoStack.length ≤ (h.pushState s).maxHistorySize := by
      rw [hps, hms, List.length_drop]
      simp only [List.length_append, List.length_cons, List.length_nil]
      omega
    obtain ⟨ih1, ih2⟩ := pushState_foldl_undo l' (h.pushState s) hlen
    refine ⟨?_, by rw [List.foldl_cons, ih2, hms]⟩
    rw [List.foldl_cons, ih1, hps, hms,
      ← List.drop_append_of_le_length
        (by simp only [List.length_append, List.length_cons, List.length_nil]; omega),
      List.drop_drop]
    rw [List.append_assoc]
    congr 1
    rw [List.length_drop]
    simp only [List.length_append, List.length_cons, List.length_nil,
      List.singleton_append]
    omega

/-- Folding `pushState` over at least one snapshot leaves the redo stack
empty. -/
theorem pushState_foldl_redo {σ : Type} :
    ∀ (l : List σ) (h : HistoryManager σ), l ≠ [] →
      (l.foldl HistoryManager.pushState h).redoStack = []
  | [], _, hne => absurd rfl hne
  | s :: l', h, _ => by
    rw [List.foldl_cons]
    cases l' with
    | nil => rfl
    | cons a as => exact pushState_foldl_redo (a :: as) (h.pushState s) (by simp)

/-- C4: `pushState` appends the snapshot to the undo stack, empties the redo
stack (so a redo right after any checkpoint returns `null` and changes
nothing), and drops the oldest undo entry once the capacity is exceeded;
from a fresh manager of capacity `c`, any sequence of `N` pushes leaves the
undo stack holding the last `min N c` pushed snapshots — exactly `c` of them,
the most recent ones, when `N > c` — so undo can succeed at most `c` times. -/
theorem pushState_spec {σ : Type} :
    (∀ (h : HistoryManager σ) (s cur : σ),
      (h.pushState s).redoStack = [] ∧
        (h.pushState s).redo cur = (h.pushState s, none) ∧
        (h.undoStack.length ≤ h.maxHistorySize →
          (h.pushState s).undoStack
            = (h.undoStack ++ [s]).drop (h.undoStack.length + 1 - h.maxHistorySize))) ∧
      (∀ (c : Nat) (l : List σ),
        (l.foldl HistoryManager.pushState (HistoryManager.new c)).undoStack
            = l.drop (l.length - c) ∧
          (l.foldl HistoryManager.pushState (HistoryManager.new c)).undoStack.length
            = min l.length c) := by
  constructor
  · intro h s cur
    refine ⟨rfl, ?_, pushState_undo_eq h s⟩
    unfold HistoryManager.redo
    simp [HistoryManager.pushState]
  · intro c l
    have hnil : (HistoryManager.new c : HistoryManager σ).undoStack = [] := rfl
    have hcap : (HistoryManager.new c : HistoryManager σ).maxHistorySize = c := rfl
    have hfold := pushState_foldl_undo l (HistoryManager.new c)
      (by rw [hnil, hcap]; exact Nat.zero_le c)
    rw [hnil, hcap] at hfold
    simp only [List.nil_append, List.length_nil, Nat.zero_add] at hfold
    refine ⟨hfold.1, ?_⟩
    rw [hfold.1, List.length_drop]
    omega

/-- Witness for `pushState_spec`: pushing `1, 2, 3` into a fresh capacity-2
manager keeps exactly `[2, 3]`, and a redo right after a push returns
`null`. -/
theorem pushState_spec_witness :
    (([1, 2, 3] : List Nat).foldl HistoryManager.pushState (HistoryManager.new 2)).undoStack
        = [2, 3] ∧
      (([1, 2, 3] : List Nat).foldl HistoryManager.pushState
          (HistoryManager.new 2)).undoStack.length = 2 ∧
      ((HistoryManager.new 2).pushState (5 : Nat)).redo 7
        = ((HistoryManager.new 2).pushState 5, none) ∧
      ((HistoryManager.new 2).pushState (5 : Nat)).undoStack = [5] := by
  have h2 := (pushState_spec (σ := Nat)).2 2 [1, 2, 3]
  have h1 := (pushState_spec (σ := Nat)).1 (HistoryManager.new 2) 5 7
  exact ⟨h2.1.trans (by decide), h2.2.trans (by decide), h1.2.1,
    (h1.2.2 (by decide)).trans (by decide)⟩

/-- C5: `undo` on an empty undo stack and `redo` on an empty redo stack
return `null` with both stacks untouched; on a non-empty stack, `undo` pushes
the passed current state onto the redo stack and pops and returns the most
recent undo entry, and `redo` does the same with the roles of the stacks
exchanged. -/
theorem undoRedo_spec {σ : Type} :
    ∀ (h : HistoryManager σ) (cur : σ),
      (h.undoStack = [] → h.undo cur = (h, none)) ∧
        (h.redoStack = [] → h.redo cur = (h, none)) ∧
        (h.undoStack ≠ [] →
          (h.undo cur).2 = h.undoStack.getLast? ∧
            (h.undo cur).1.undoStack = h.undoStack.dropLast ∧
            (h.undo cur).1.redoStack = h.redoStack ++ [cur] ∧
            (h.undo cur).1.maxHistorySize = h.maxHistorySize) ∧
        (h.redoStack ≠ [] →
          (h.redo cur).2 = h.redoStack.getLast? ∧
            (h.redo cur).1.redoStack = h.redoStack.dropLast ∧
            (h.redo cur).1.undoStack = h.undoStack ++ [cur] ∧
            (h.redo cur).1.maxHistorySize = h.maxHistorySize) := by
  intro h cur
  refine ⟨?_, ?_, ?_, ?_⟩
  · intro he
    simp [HistoryManager.undo, he]
  · intro he
    simp [HistoryManager.redo, he]
  · intro hne
    have hlen : h.undoStack.length ≠ 0 :=
      Nat.pos_iff_ne_zero.mp (List.length_pos.mpr hne)
    simp [HistoryManager.undo, hlen]
  · intro hne
    have hlen : h.redoStack.length ≠ 0 :=
      Nat.pos_iff_ne_zero.mp (List.length_pos.mpr hne)
    simp [HistoryManager.redo, hlen]

/-- Witness for `undoRedo_spec`: an exhausted fresh manager answers `null` on
both `undo` and `redo`, and a one-entry undo stack is popped and returned. -/
theorem undoRedo_spec_witness :
    (HistoryManager.new 100).undo (3 : Nat) = (HistoryManager.new 100, none) ∧
      (HistoryManager.new 100).redo (3 : Nat) = (HistoryManager.new 100, none) ∧
      (((HistoryManager.new 100).pushState (5 : Nat)).undo 3).2 = some 5 := by
  have h0 := undoRedo_spec (HistoryManager.new 100) (3 : Nat)
  have h1 := undoRedo_spec ((HistoryManager.new 100).pushState (5 : Nat)) (3 : Nat)
  exact ⟨h0.1 rfl, h0.2.1 rfl, ((h1.2.2.1 (by decide)).1).trans (by decide)⟩

/-- Every single call preserves the bound `|undo| + |redo| ≤ capacity` and
leaves the capacity itself unchanged. -/
theorem applyOp_invariant {σ : Type} (h : HistoryManager σ) (op : HistOp σ)
    (hinv : h.undoStack.length + h.redoStack.length ≤ h.maxHistorySize) :
    (h.applyOp op).undoStack.length + (h.applyOp op).redoStack.length
        ≤ (h.applyOp op).maxHistorySize
      ∧ (h.applyOp op).maxHistorySize = h.maxHistorySize := by
  cases op with
  | push s =>
    have hle : h.undoStack.length ≤ h.maxHistorySize := by omega
    have hu := pushState_undo_eq h s hle
    have hr : (h.pushState s).redoStack = [] := rfl
    have hm : (h.pushState s).maxHistorySize = h.maxHistorySize := rfl
    refine ⟨?_, hm⟩
    show (h.pushState s).undoStack.length + (h.pushState s).redoStack.length
      ≤ (h.pushState s).maxHistorySize
    rw [hu, hr, hm, List.length_drop]
    simp only [List.length_append, List.length_cons, List.length_nil]
    omega
  | undo cur =>
    by_cases he : h.undoStack.length = 0
    · simp [HistoryManager.applyOp, HistoryManager.undo, he]
      omega
    · simp [HistoryManager.applyOp, HistoryManager.undo, he]
      omega
  | redo cur =>
    by_cases he : h.redoStack.length = 0
    · simp [HistoryManager.applyOp, HistoryManager.redo, he]
      omega
    · simp [HistoryManager.applyOp, HistoryManager.redo, he]
      omega

/-- The bound survives any sequence of calls. -/
theorem history_bounded_go {σ : Type} :
    ∀ (ops : List (HistOp σ)) (h : HistoryManager σ),
      h.undoStack.length + h.redoStack.length ≤ h.maxHistorySize →
      (ops.foldl HistoryManager.applyOp h).undoStack.length
          + (ops.foldl HistoryManager.applyOp h).redoStack.length
        ≤ (ops.foldl HistoryManager.applyOp h).maxHistorySize
      ∧ (ops.foldl HistoryManager.applyOp h).maxHistorySize = h.maxHistorySize
  | [], _, hinv => ⟨hinv, rfl⟩
  | op :: ops, h, hinv => by
    obtain ⟨h1, h2⟩ := applyOp_invariant h op hinv
    obtain ⟨g1, g2⟩ := history_bounded_go ops (h.applyOp op) h1
    rw [List.foldl_cons]
    exact ⟨g1, g2.trans h2⟩

/-- C9: starting from a fresh manager of capacity `c`, after any sequence of
`pushState`/`undo`/`redo` calls neither stack ever holds more than `c`
entries; in fact the two stack lengths sum to at most `c`, even though `undo`
and `redo` push without any capacity check of their own. -/
theorem history_bounded_spec {σ : Type} :
    ∀ (c : Nat) (ops : List (HistOp σ)),
      (ops.foldl HistoryManager.applyOp (HistoryManager.new c)).undoStack.length ≤ c ∧
        (ops.foldl HistoryManager.applyOp (HistoryManager.new c)).redoStack.length ≤ c ∧
        (ops.foldl HistoryManager.applyOp (HistoryManager.new c)).undoStack.length
            + (ops.foldl HistoryManager.applyOp (HistoryManager.new c)).redoStack.length
          ≤ c := by
  intro c ops
  have hinv : (HistoryManager.new c : HistoryManager σ).undoStack.length
      + (HistoryManager.new c : HistoryManager σ).redoStack.length
      ≤ (HistoryManager.new c : HistoryManager σ).maxHistorySize := Nat.zero_le c
  obtain ⟨h1, h2⟩ := history_bounded_go ops (HistoryManager.new c) hinv
  have hc : (HistoryManager.new c : HistoryManager σ).maxHistorySize = c := rfl
  rw [h2, hc] at h1
  exact ⟨by omega, by omega, h1⟩

/-- Reindexing changes only the stored indices, never the observable row
content. -/
theorem reindexFrom_content : ∀ (i : Nat) (rows : List Row),
    (reindexFrom i rows).map rowContent = rows.map rowContent
  | _, [] => rfl
  | i, r :: rs => by
    simp [reindexFrom, rowContent, reindexFrom_content (i + 1) rs,
      List.map_map, Function.comp]

/-- C6: every positional mutation with an invalid index is a no-op reporting
failure: `removeRow` returns `true` and removes exactly the addressed row
content when the index is in range and otherwise returns `false` with the
board unchanged; `moveRowUp` at index 0 (and any index out of `1..N-1`) and
`moveRowDown` at the last index (and any index out of `0..N-2`) return
`false` with the board unchanged; and `setColumnRequiredWorkers` leaves the
board untouched, with no error signal, unless the column index is valid and
the count is positive. -/
theorem invalidIndex_noop_spec :
    (∀ (b : BoardState) (p : Int), 0 ≤ p → p < (b.rows.length : Int) →
        (removeRow b p).2 = true ∧
          (removeRow b p).1.rows.map rowContent
            = (b.rows.eraseIdx p.toNat).map rowContent) ∧
      (∀ (b : BoardState) (p : Int), ¬(0 ≤ p ∧ p < (b.rows.length : Int)) →
        removeRow b p = (b, false)) ∧
      (∀ b : BoardState, moveRowUp b 0 = (b, false)) ∧
      (∀ (b : BoardState) (p : Int), ¬(0 < p ∧ p < (b.rows.length : Int)) →
        moveRowUp b p = (b, false)) ∧
      (∀ b : BoardState, moveRowDown b ((b.rows.length : Int) - 1) = (b, false)) ∧
      (∀ (b : BoardState) (p : Int), ¬(0 ≤ p ∧ p < (b.rows.length : Int) - 1) →
        moveRowDown b p = (b, false)) ∧
      (∀ (b : BoardState) (ci cnt : Int),
        ¬((0 ≤ ci ∧ ci < (b.columns.length : Int)) ∧ 0 < cnt) →
        setColumnRequiredWorkers b ci cnt = b) := by
  refine ⟨?_, ?_, ?_, ?_, ?_, ?_, ?_⟩
  · intro b p h0 hlen
    unfold removeRow
    rw [if_pos ⟨h0, hlen⟩]
    exact ⟨rfl, reindexFrom_content 0 _⟩
  · intro b p hno
    unfold removeRow
    rw [if_neg hno]
  · intro b
    unfold moveRowUp
    rw [if_neg (by omega)]
  · intro b p hno
    unfold moveRowUp
    rw [if_neg hno]
  · intro b
    unfold moveRowDown
    rw [if_neg (by omega)]
  · intro b p hno
    unfold moveRowDown
    rw [if_neg hno]
  · intro b ci cnt hno
    simp only [setColumnRequiredWorkers, jsGet?]
    by_cases hci : 0 ≤ ci
    · rw [if_pos hci]
      cases hg : b.columns.get? ci.toNat with
      | none => rfl
      | some col =>
        have hlt : ci < (b.columns.length : Int) := by
          have := (List.get?_eq_some.mp hg).1
          omega
        have hcnt : ¬0 < cnt := fun hc => hno ⟨⟨hci, hlt⟩, hc⟩
        simp only [hcnt, if_false]
    · rw [if_neg hci]

/-- Witness for `invalidIndex_noop_spec`: on the two-row `mixedBoard`,
removing row 1 succeeds and removes its content, while a negative removal
index, `moveRowUp 0`, `moveRowDown` at the last row and a zero worker count
all leave the board untouched. -/
theorem invalidIndex_noop_spec_witness :
    (removeRow mixedBoard 1).2 = true ∧
      (removeRow mixedBoard 1).1.rows.map rowContent
        = (mixedBoard.rows.eraseIdx 1).map rowContent ∧
      removeRow mixedBoard (-1) = (mixedBoard, false) ∧
      moveRowUp mixedBoard 0 = (mixedBoard, false) ∧
      moveRowDown mixedBoard 1 = (mixedBoard, false) ∧
      setColumnRequiredWorkers mixedBoard 0 0 = mixedBoard := by
  obtain ⟨h1, h2, h3, _, _, h6, h7⟩ := invalidIndex_noop_spec
  exact ⟨(h1 mixedBoard 1 (by decide) (by decide)).1,
    (h1 mixedBoard 1 (by decide) (by decide)).2,
    h2 mixedBoard (-1) (by decide),
    h3 mixedBoard,
    h6 mixedBoard 1 (by decide),
    h7 mixedBoard 0 0 (by decide)⟩

/-- Reindexing from `i` always yields rows densely indexed from `i`, with
every tile's back-reference matching. -/
theorem denseFrom_reindexFrom : ∀ (i : Nat) (rows : List Row),
    denseFrom i (reindexFrom i rows) = true
  | _, [] => rfl
  | i, r :: rs => by
    simp [reindexFrom, denseFrom, denseFrom_reindexFrom (i + 1) rs, List.all_map,
      Function.comp]

/-- Reindexing does not move or change any tile's column position. -/
theorem reindexFrom_tiles : ∀ (i : Nat) (rows : List Row),
    (reindexFrom i rows).all tilesWellFormed = rows.all tilesWellFormed
  | _, [] => rfl
  | i, r :: rs => by
    simp [reindexFrom, tilesWellFormed, reindexFrom_tiles (i + 1) rs, List.map_map,
      Function.comp_def]

/-- Removing an element keeps every per-row predicate that held before. -/
theorem all_eraseIdx (p : Row → Bool) (rows : List Row) (n : Nat)
    (h : rows.all p = true) : (rows.eraseIdx n).all p = true := by
  rw [List.all_eq_true] at h ⊢
  intro x hx
  exact h x ((List.eraseIdx_sublist rows n).subset hx)

/-- Exchanging two rows drawn from the list keeps every per-row predicate. -/
theorem all_swap (p : Row → Bool) (rows : List Row) (a c : Nat) (ra rc : Row)
    (ha : rows.get? a = some ra) (hc : rows.get? c = some rc)
    (h : rows.all p = true) : ((rows.set a rc).set c ra).all p = true := by
  rw [List.all_eq_true] at h ⊢
  intro x hx
  rcases List.mem_or_eq_of_mem_set hx with hx' | rfl
  · rcases List.mem_or_eq_of_mem_set hx' with hx'' | rfl
    · exact h x hx''
    · exact h _ (List.get?_mem hc)
  · exact h _ (List.get?_mem ha)

/-- Appending a correctly indexed row to a dense block keeps it dense. -/
theorem denseFrom_append : ∀ (i : Nat) (rows : List Row) (r : Row),
    denseFrom i rows = true → r.index = i + rows.length →
    r.tiles.all (fun t => decide (t.rowIndex = i + rows.length)) = true →
    denseFrom i (rows ++ [r]) = true
  | i, [], r, _, hidx, htl => by
    have hidx' : r.index = i := by simpa using hidx
    have htl' : r.tiles.all (fun t => decide (t.rowIndex = i)) = true := by
      simpa using htl
    simp [denseFrom, hidx', htl']
  | i, x :: xs, r, hd, hidx, htl => by
    simp only [denseFrom, Bool.and_eq_true] at hd
    simp only [List.cons_append, denseFrom, Bool.and_eq_true]
    refine ⟨hd.1, denseFrom_append (i + 1) xs r hd.2 ?_ ?_⟩
    · simpa [Nat.add_assoc, Nat.add_comm, Nat.add_left_comm] using hidx
    · have : i + (x :: xs).length = i + 1 + xs.length := by
        simp [Nat.add_assoc, Nat.add_comm, Nat.add_left_comm]
      rw [← this]
      exact htl

/-- C7: starting from a well-formed board — dense row positions `0..N-1`,
every tile's row back-reference equal to its owning row's position, seven
tiles per row with column positions `0..6` — `addRow`, a successful
`removeRow`, and a successful `moveRowUp`/`moveRowDown` each restore exactly
that shape: no stale back-reference survives. -/
theorem structuralMutation_spec :
    ∀ (b : BoardState) (hdr : String) (p : Int),
      boardWellFormed b = true →
      boardWellFormed (addRow b hdr).1 = true ∧
        ((removeRow b p).2 = true → boardWellFormed (removeRow b p).1 = true) ∧
        ((moveRowUp b p).2 = true → boardWellFormed (moveRowUp b p).1 = true) ∧
        ((moveRowDown b p).2 = true → boardWellFormed (moveRowDown b p).1 = true) := by
  intro b hdr p hwf
  rw [boardWellFormed, Bool.and_eq_true] at hwf
  obtain ⟨hdense, htiles⟩ := hwf
  refine ⟨?_, ?_, ?_, ?_⟩
  · -- addRow appends a row indexed with the old row count
    simp only [addRow, boardWellFormed, Bool.and_eq_true]
    constructor
    · refine denseFrom_append 0 b.rows _ hdense (by simp) ?_
      simp [List.all_map, Function.comp_def]
    · rw [List.all_append]
      refine (Bool.and_eq_true _ _).mpr ⟨htiles, ?_⟩
      simp only [tilesWellFormed, List.map_map, Function.comp_def, List.all_cons,
        List.all_nil, decide_eq_true_eq]
      decide
  · intro hsucc
    by_cases hcond : 0 ≤ p ∧ p < (b.rows.length : Int)
    · simp only [removeRow, if_pos hcond, boardWellFormed, Bool.and_eq_true]
      exact ⟨denseFrom_reindexFrom 0 _,
        (reindexFrom_tiles 0 _).trans (all_eraseIdx _ _ _ htiles)⟩
    · rw [removeRow, if_neg hcond] at hsucc
      cases hsucc
  · intro hsucc
    by_cases hcond : 0 < p ∧ p < (b.rows.length : Int)
    · rw [moveRowUp, if_pos hcond]
      have ha : p.toNat < b.rows.length := by omega
      have hc : p.toNat - 1 < b.rows.length := by omega
      cases hga : b.rows.get? p.toNat with
      | none => rw [List.get?_eq_none] at hga; omega
      | some ra =>
        cases hgc : b.rows.get? (p.toNat - 1) with
        | none => rw [List.get?_eq_none] at hgc; omega
        | some rc =>
          simp only [swapRows, hga, hgc, boardWellFormed, Bool.and_eq_true]
          exact ⟨denseFrom_reindexFrom 0 _,
            (reindexFrom_tiles 0 _).trans (all_swap _ _ _ _ _ _ hga hgc htiles)⟩
    · rw [moveRowUp, if_neg hcond] at hsucc
      cases hsucc
  · intro hsucc
    by_cases hcond : 0 ≤ p ∧ p < (b.rows.length : Int) - 1
    · rw [moveRowDown, if_pos hcond]
      have ha : p.toNat < b.rows.length := by omega
      have hc : p.toNat + 1 < b.rows.length := by omega
      cases hga : b.rows.get? p.toNat with
      | none => rw [List.get?_eq_none] at hga; omega
      | some ra =>
        cases hgc : b.rows.get? (p.toNat + 1) with
        | none => rw [List.get?_eq_none] at hgc; omega
        | some rc =>
          simp only [swapRows, hga, hgc, boardWellFormed, Bool.and_eq_true]
          exact ⟨denseFrom_reindexFrom 0 _,
            (reindexFrom_tiles 0 _).trans (all_swap _ _ _ _ _ _ hga hgc htiles)⟩
    · rw [moveRowDown, if_neg hcond] at hsucc
      cases hsucc

/-- Witness for `structuralMutation_spec`: on the well-formed two-row
`mixedBoard`, adding a row, removing row 0 and moving row 1 up all yield
well-formed boards. -/
theorem structuralMutation_spec_witness :
    boardWellFormed mixedBoard = true ∧
      boardWellFormed (addRow mixedBoard "Ola").1 = true ∧
      boardWellFormed (removeRow mixedBoard 0).1 = true ∧
      boardWellFormed (moveRowUp mixedBoard 1).1 = true := by
  obtain ⟨h1, h2, h3, _⟩ := structuralMutation_spec mixedBoard "Ola" 0 (by decide)
  obtain ⟨_, _, h3', _⟩ := structuralMutation_spec mixedBoard "Ola" 1 (by decide)
  exact ⟨by decide, h1, h2 (by decide), h3' (by decide)⟩

/-- C8: serializing a class-based board with `toJSON` and reconstructing with
`fromJSON` yields a deeply equal board — identical columns (index,
required-worker count and the name, which the constructor derives from the
index), rows (index, header, inclusion flag) and tiles (row position, column
position, state) — for every board whose column names carry their derived
values, as every constructor-built board does; rows and tiles round-trip
unconditionally. -/
theorem board_roundtrip_spec :
    (∀ r : Row, Row.fromJSON (Row.toJSON r) = r) ∧
      (∀ b : BoardObj,
        (∀ c ∈ b.columns, c.name = DAYS_OF_WEEK.getD c.index "") →
        BoardObj.fromJSON (BoardObj.toJSON b) = b) := by
  have hrow : ∀ r : Row, Row.fromJSON (Row.toJSON r) = r := by
    intro r
    simp [Row.toJSON, Row.fromJSON, Tile.toJSON, Tile.fromJSON, List.map_map,
      Function.comp_def]
  refine ⟨hrow, ?_⟩
  intro b hname
  have hcols : (b.columns.map ColumnObj.toJSON).map ColumnObj.fromJSON = b.columns := by
    rw [List.map_map]
    have : ∀ c ∈ b.columns, (ColumnObj.fromJSON ∘ ColumnObj.toJSON) c = id c := by
      intro c hc
      have hn := hname c hc
      simp only [Function.comp_apply, ColumnObj.toJSON, ColumnObj.fromJSON,
        ColumnObj.make, id_eq, ← hn]
    rw [List.map_congr_left this, List.map_id]
  have hrows : (b.rows.map Row.toJSON).map Row.fromJSON = b.rows := by
    rw [List.map_map]
    have : ∀ r ∈ b.rows, (Row.fromJSON ∘ Row.toJSON) r = id r := fun r _ => hrow r
    rw [List.map_congr_left this, List.map_id]
  cases b with
  | mk columns rows =>
    simp only [BoardObj.toJSON, BoardObj.fromJSON, BoardObj.mk.injEq]
    exact ⟨hcols, hrows⟩

/-- Witness for `board_roundtrip_spec`: the populated `sampleBoardObj` — all
seven constructor-built columns with mixed requirements, one included
all-work row and one excluded mixed-state row — survives the round trip
unchanged. -/
theorem board_roundtrip_spec_witness :
    BoardObj.fromJSON (BoardObj.toJSON sampleBoardObj) = sampleBoardObj :=
  board_roundtrip_spec.2 sampleBoardObj (by decide)

end GrafikPlaner
